import Mathlib

/-!
Verification of the tte-screensaver core against its natural-language
specification: a shallow embedding of `src/renderer.py` (ANSI escape
interpreter, color resolver, frame diff engine), `src/effects.py`
(effect manager / session cycling) and `src/screensaver.py` (per-monitor
render loop), with theorems settling the spec's claims about them.

Conventions of the embedding:
* Python `int` values arising here are cursor coordinates (may go
  negative, modelled as `Int`) or non-negative color/palette numbers
  (modelled as `Nat` — the SGR parameter strings are produced by the
  regex `[0-9;]*` and are digit-only, never signed).
* Python dicts keyed by `(row, col)` are modelled as association lists
  in insertion order with last-writer-wins insertion, exactly the
  behaviour of dict construction; `lookupCell` is dict lookup.
* The external `terminaltexteffects` catalog (an iterator of frame
  strings per effect) is modelled as an opaque function
  `FrameCatalog : effect name → text → canvas → List String`; a Python
  generator, once exhausted, raises `StopIteration` on every later
  `next`, which the list model reproduces (empty list stays empty).
* Randomness (`random.shuffle`, `random.choice`) is modelled by opaque
  function parameters universally quantified in the theorems.
-/

/-- An RGB triple, as the Python `(r, g, b)` tuples of `renderer.py`. -/
abbrev RGB := Nat × Nat × Nat

/-- `(char, color)` cell data, `renderer.py`'s `CellData` type alias. -/
abbrev CellData := Char × RGB

/-- A `(row, col)` cell position (cursor coordinates may be negative). -/
abbrev Pos := Int × Int

/-- `ANSIRenderer.default_fg_color = (255, 255, 255)`. -/
def default_fg_color : RGB := (255, 255, 255)

/-- The `colors` table of `ANSIRenderer._basic_color`. -/
def basic_colors : List RGB :=
  [(0, 0, 0), (170, 0, 0), (0, 170, 0), (170, 85, 0),
   (0, 0, 170), (170, 0, 170), (0, 170, 170), (170, 170, 170)]

/-- The `bright_colors` table of `ANSIRenderer._basic_color`. -/
def bright_colors : List RGB :=
  [(85, 85, 85), (255, 85, 85), (85, 255, 85), (255, 255, 85),
   (85, 85, 255), (255, 85, 255), (85, 255, 255), (255, 255, 255)]

/-- `ANSIRenderer._basic_color(index, bright)`: table lookup with the
default foreground as out-of-range fallback.  The source's `bright`
parameter defaults to `False`; the embedding passes it explicitly. -/
def basic_color (index : Nat) (bright : Bool) : RGB :=
  if bright then
    if index < bright_colors.length then bright_colors.getD index default_fg_color
    else default_fg_color
  else
    if index < basic_colors.length then basic_colors.getD index default_fg_color
    else default_fg_color

/-- `ANSIRenderer._xterm_to_rgb(color_num)`: xterm 256-color number to
RGB (basic table, 6x6x6 cube, or grayscale ramp). -/
def xterm_to_rgb (color_num : Nat) : RGB :=
  if color_num < 16 then
    basic_color (color_num % 8) (decide (8 ≤ color_num))
  else if color_num < 232 then
    let n := color_num - 16
    let r := (n / 36) % 6
    let g := (n / 6) % 6
    let b := n % 6
    ((if r = 0 then 0 else r * 51),
     (if g = 0 then 0 else g * 51),
     (if b = 0 then 0 else b * 51))
  else
    let gray := (color_num - 232) * 10 + 8
    (gray, gray, gray)

/-- Decimal digit chars to the number Python's `int()` yields on them. -/
def digitsToNat (ds : List Char) : Nat :=
  ds.foldl (fun a c => a * 10 + (c.toNat - 48)) 0

/-- Python `int(s)` on an SGR parameter string.  The strings reaching
`_parse_color_codes` come from splitting a `[0-9;]*` regex group on
`;`, so they are digit-only (possibly empty): a nonempty all-digit
string parses, anything else raises `ValueError`, modelled as `none`. -/
def pyInt? (s : String) : Option Nat :=
  if s.data.isEmpty then none
  else if s.data.all Char.isDigit then some (digitsToNat s.data)
  else none

/-- The `while i < len(codes)` loop of `ANSIRenderer._parse_color_codes`,
as recursion on the suffix `codes[i:]`.  Each arm mirrors one control
path of the source: unparseable fields and unrecognized codes step
`i += 1` (recurse on the tail), truncated `38;2` / `38;5` sequences fall
through to the same `i += 1`, and failed numeric parses inside a complete
`38;2;R;G;B` / `38;5;N` skip the whole sequence (`i += 5` / `i += 3`).
The `fuel` argument counts loop iterations; since `i` strictly increases
each iteration, `codes.length` iterations always suffice, so the
fuel-exhausted arm is unreachable from `parse_color_codes` (see
`parseColorLoop_fuel`). -/
def parseColorLoop : Nat → List String → RGB → RGB
  | 0, _, current => current
  | _ + 1, [], current => current
  | fuel + 1, c :: rest, current =>
    match pyInt? c with
    | none => parseColorLoop fuel rest current
    | some code =>
      if code = 0 then default_fg_color
      else if code = 38 then
        match rest with
        | [] => parseColorLoop fuel rest current
        | ct :: rest2 =>
          match pyInt? ct with
          | none => parseColorLoop fuel (ct :: rest2) current
          | some color_type =>
            if color_type = 2 then
              match rest2 with
              | r :: g :: b :: rest3 =>
                match pyInt? r, pyInt? g, pyInt? b with
                | some rv, some gv, some bv => (rv, gv, bv)
                | _, _, _ => parseColorLoop fuel rest3 current
              | _ => parseColorLoop fuel (ct :: rest2) current
            else if color_type = 5 then
              match rest2 with
              | n :: rest3 =>
                match pyInt? n with
                | some nv => xterm_to_rgb nv
                | none => parseColorLoop fuel rest3 current
              | [] => parseColorLoop fuel (ct :: rest2) current
            else parseColorLoop fuel (ct :: rest2) current
      else if 30 ≤ code ∧ code ≤ 37 then basic_color (code - 30) false
      else if 90 ≤ code ∧ code ≤ 97 then basic_color (code - 90) true
      else parseColorLoop fuel rest current

/-- `ANSIRenderer._parse_color_codes(codes, current_color)`: the guard
`if not codes or codes == [""]` then the scanning loop. -/
def parse_color_codes (codes : List String) (current_color : RGB) : RGB :=
  if codes = [] ∨ codes = [String.mk []] then default_fg_color
  else parseColorLoop codes.length codes current_color

/-- The character class `[0-9;]` of the `ANSI_ESCAPE` / `ANSI_ANY`
regexes. -/
def isParamChar (c : Char) : Bool := c.isDigit || c == ';'

/-- `ANSI_CURSOR_POS.match(frame, i)` after the `ESC [` prefix: regex
`(\d+);(\d+)H`.  Greedy digit runs are maximal runs; since shrinking a
run can only put a digit where `;` or `H` is required, the span-based
match coincides with the regex's backtracking search.  `\d` is modelled
as ASCII digits, the only digits the escape-coded frames contain.
Returns the two numbers and the unconsumed suffix. -/
def matchCursorPos (cs : List Char) : Option (Nat × Nat × List Char) :=
  let d1 := cs.takeWhile Char.isDigit
  if d1.isEmpty then none
  else
    match cs.dropWhile Char.isDigit with
    | ';' :: r2 =>
      let d2 := r2.takeWhile Char.isDigit
      if d2.isEmpty then none
      else
        match r2.dropWhile Char.isDigit with
        | 'H' :: r4 => some (digitsToNat d1, digitsToNat d2, r4)
        | _ => none
    | _ => none

/-- `ANSI_ESCAPE.match(frame, i)` after the `ESC [` prefix: regex
`([0-9;]*)m`.  Returns the captured parameter characters and the
unconsumed suffix. -/
def matchColor (cs : List Char) : Option (List Char × List Char) :=
  match cs.dropWhile isParamChar with
  | 'm' :: r => some (cs.takeWhile isParamChar, r)
  | _ => none

/-- `ANSI_ANY.match(frame, i)` after the `ESC [` prefix: regex
`[0-9;]*[A-Za-z]`.  Returns the unconsumed suffix. -/
def matchAnsiAny (cs : List Char) : Option (List Char) :=
  match cs.dropWhile isParamChar with
  | c :: r => if c.isAlpha then some r else none
  | _ => none

/-- `color_match.group(1).split(";")`: Python `str.split` on `;`, which
`String.splitOn` reproduces (both give `[""]` on the empty string). -/
def splitParams (params : List Char) : List String :=
  (String.mk params).splitOn ";"

/-- One `(row, col, char, color)` entry of the sparse parse result. -/
abbrev RawCell := Int × Int × Char × RGB

/-- The emission guard of `parse_ansi_frame_sparse`: a non-space char at
an in-canvas cursor position appends one cell, anything else appends
nothing (out-of-bounds writes silently dropped). -/
def emitCell (c : Char) (color : RGB) (row col : Int) (cw chh : Nat) : List RawCell :=
  if c ≠ ' ' ∧ 0 ≤ row ∧ row < (chh : Int) ∧ 0 ≤ col ∧ col < (cw : Int) then
    [(row, col, c, color)]
  else []

/-- The `while i < frame_len` scan of `ANSIRenderer.parse_ansi_frame_sparse`:
try the cursor-position regex, then the color regex, then the generic
ANSI-skip regex (all only when the scan sits on `ESC [`), else handle
`\n`, `\r`, and ordinary characters.  When no regex matches at an
`ESC [`, the source falls through and treats `ESC` as an ordinary
(non-space) character, emitting it and advancing one column — the last
arm of the `ESC [` case.  The cursor is `Int`-valued because
`ESC[0;0H` sets it to `(-1, -1)`.  `fuel` counts loop iterations; every
iteration consumes at least one character, so `frame.length` iterations
always suffice and the fuel-exhausted arm is unreachable from
`parse_ansi_frame_sparse` (see `parseLoop_fuel`). -/
def parseLoop : Nat → List Char → RGB → Int → Int → Nat → Nat → List RawCell
  | 0, _, _, _, _, _, _ => []
  | _ + 1, [], _, _, _, _, _ => []
  | fuel + 1, '\x1b' :: '[' :: cs2, color, row, col, cw, chh =>
    (match matchCursorPos cs2 with
     | some (r, c, rest) => parseLoop fuel rest color ((r : Int) - 1) ((c : Int) - 1) cw chh
     | none =>
       match matchColor cs2 with
       | some (params, rest) =>
         parseLoop fuel rest (parse_color_codes (splitParams params) color) row col cw chh
       | none =>
         match matchAnsiAny cs2 with
         | some rest => parseLoop fuel rest color row col cw chh
         | none =>
           emitCell '\x1b' color row col cw chh
             ++ parseLoop fuel ('[' :: cs2) color row (col + 1) cw chh)
  | fuel + 1, c :: rest, color, row, col, cw, chh =>
    if c = '\n' then parseLoop fuel rest color (row + 1) 0 cw chh
    else if c = '\r' then parseLoop fuel rest color row 0 cw chh
    else emitCell c color row col cw chh ++ parseLoop fuel rest color row (col + 1) cw chh

/-- `ANSIRenderer.parse_ansi_frame_sparse(frame, canvas_width,
canvas_height)` (the source defaults the canvas to 200 x 100; callers
pass the monitor's canvas).  Cursor starts at `(0, 0)`, color at the
default foreground. -/
def parse_ansi_frame_sparse (frame : String) (canvas_width canvas_height : Nat) : List RawCell :=
  parseLoop frame.data.length frame.data default_fg_color 0 0 canvas_width canvas_height

/-- A parsed frame as a dict keyed by `(row, col)`, `renderer.py`'s
`Dict[Tuple[int, int], CellData]`: an association list in insertion
order. -/
abbrev CellMap := List (Pos × CellData)

/-- Python dict lookup `m.get(p)` (first entry with the key; a `CellMap`
built by `dictInsert` has unique keys). -/
def lookupCell : CellMap → Pos → Option CellData
  | [], _ => none
  | (k, v) :: rest, p => if k = p then some v else lookupCell rest p

/-- Python dict membership `p in m`. -/
def containsKey (m : CellMap) (p : Pos) : Bool := (lookupCell m p).isSome

/-- The entry rewrite `dictInsert` applies at an already-present key. -/
def replaceEntry (k : Pos) (v : CellData) (kv : Pos × CellData) : Pos × CellData :=
  if kv.1 = k then (k, v) else kv

/-- Python dict assignment `m[k] = v`: overwrite in place when the key is
present (keeping its insertion position), else append. -/
def dictInsert (m : CellMap) (k : Pos) (v : CellData) : CellMap :=
  if containsKey m k then m.map (replaceEntry k v)
  else m ++ [(k, v)]

/-- The dict comprehension of `ANSIRenderer.parse_to_dict`: entries added
in sparse-list order, a later cell at the same `(row, col)` silently
overwriting an earlier one. -/
def cellsToDict (cells : List RawCell) : CellMap :=
  cells.foldl (fun m rc => dictInsert m (rc.1, rc.2.1) (rc.2.2.1, rc.2.2.2)) []

/-- `ANSIRenderer.parse_to_dict(frame, canvas_width, canvas_height)`. -/
def parse_to_dict (frame : String) (canvas_width canvas_height : Nat) : CellMap :=
  cellsToDict (parse_ansi_frame_sparse frame canvas_width canvas_height)

/-- The clear positions of `ANSIRenderer.render_frame_delta`: the first
loop (`prev_keys - curr_keys`) followed by the in-both-but-changed
clears appended during the second loop (`prev_data is not None` and
`prev_data != curr_data`).  The source iterates Python sets; the
embedding fixes insertion order, membership being what matters. -/
def clear_positions (prev curr : CellMap) : List Pos :=
  (prev.map Prod.fst).filter (fun p => !(containsKey curr p))
  ++ (curr.filter
      (fun pc =>
        match lookupCell prev pc.1 with
        | none => false
        | some c => decide (c ≠ pc.2))).map Prod.fst

/-- The draw cells of `ANSIRenderer.render_frame_delta`'s second loop:
entries of `curr` that are new or changed (`prev_cells.get(pos) !=
curr_data`). -/
def draw_cells (prev curr : CellMap) : List (Pos × CellData) :=
  curr.filter (fun pc => decide (lookupCell prev pc.1 ≠ some pc.2))

/-- The observable outcome of `ANSIRenderer.render_frame_delta`: which
cells are cleared, which are drawn, and the returned `curr_cells` (the
caller's `prev_cells` for the next frame).  The source maps each position
to the pixel blit `(offset_x + col*char_width, offset_y + row*char_height)`;
the cell-level sets are what the diff computes. -/
structure DeltaResult where
  clears : List Pos
  draws : List (Pos × CellData)
  next : CellMap

/-- `ANSIRenderer.render_frame_delta(frame, surface, prev_cells, ...)`:
parse the frame to a dict, diff against `prev_cells`, return the current
dict. -/
def render_frame_delta (frame : String) (prev : CellMap) (canvas_width canvas_height : Nat) :
    DeltaResult :=
  let curr := parse_to_dict frame canvas_width canvas_height
  { clears := clear_positions prev curr
    draws := draw_cells prev curr
    next := curr }

/-- The keys of `AVAILABLE_EFFECTS` in `effects.py`: the catalog's known
effect names. -/
def available_effect_names : List String :=
  ["Beams", "BinaryPath", "Blackhole", "BouncyBalls", "Bubbles", "Burn",
   "ColorShift", "Crumble", "Decrypt", "ErrorCorrect", "Expand", "Fireworks",
   "Highlight", "LaserEtch", "Matrix", "MiddleOut", "OrbittingVolley",
   "Overflow", "Pour", "Print", "Rain", "RandomSequence", "Rings",
   "Scattered", "Slice", "Slide", "Spotlights", "Spray", "Swarm", "Sweep",
   "SynthGrid", "Unstable", "VHSTape", "Waves", "Wipe"]

/-- The fixed fallback triple of `EffectManager.__init__`. -/
def fallback_effects : List String := ["Matrix", "Rain", "Decrypt"]

/-- The validation step of `EffectManager.__init__` (effects.py lines
122-128): keep the configured names that are in `AVAILABLE_EFFECTS`,
and fall back to the fixed triple when none remain. -/
def validate_enabled_effects (enabled_effects : List String) : List String :=
  if enabled_effects.filter (fun name => available_effect_names.contains name) = [] then
    fallback_effects
  else enabled_effects.filter (fun name => available_effect_names.contains name)

/-- The external `terminaltexteffects` catalog: for an effect name, a
text and canvas dimensions, the finite frame sequence its iterator
yields.  A Python generator raises `StopIteration` on every `next` after
exhaustion, which the list model reproduces. -/
abbrev FrameCatalog := String → String → Nat → Nat → List String

/-- `effects.EffectState`: the cycling state dataclass, with the live
iterator modelled as its remaining frames. -/
structure EffectState where
  current_effect_index : Nat
  current_iterator : Option (List String)
  effect_completed : Bool
deriving DecidableEq, Repr

/-- `effects.EffectManager`: text, canvas and the validated (shuffled)
enabled-effect schedule, plus the cycling state. -/
structure EffectManager where
  text : String
  canvas_width : Nat
  canvas_height : Nat
  enabled_effects : List String
  state : EffectState
deriving DecidableEq, Repr

/-- `EffectManager._create_effect`: instantiate the effect named at the
current index (the index is always in range: it starts at 0 with a
nonempty schedule and `switch_to_next_effect` picks among valid indices;
the embedding falls back to the empty name like `getD`), obtain a fresh
iterator, and clear the completed flag. -/
def create_effect (fr : FrameCatalog) (m : EffectManager) : EffectManager :=
  { m with
    state :=
      { current_effect_index := m.state.current_effect_index
        current_iterator :=
          some (fr (m.enabled_effects.getD m.state.current_effect_index (String.mk []))
            m.text m.canvas_width m.canvas_height)
        effect_completed := false } }

/-- `EffectManager.__init__`: validate the enabled names (fallback
triple when none are valid), shuffle them (`random.shuffle`, modelled as
an opaque permutation parameter), start at index 0 and build the first
effect.  The source `__init__` accepts no other parameters — in
particular, no `start_index` (see `mk_monitor_effect`). -/
def effect_manager_init (shuffle : List String → List String) (fr : FrameCatalog)
    (text : String) (enabled_effects : List String)
    (canvas_width canvas_height : Nat) : EffectManager :=
  create_effect fr
    { text := text
      canvas_width := canvas_width
      canvas_height := canvas_height
      enabled_effects := shuffle (validate_enabled_effects enabled_effects)
      state :=
        { current_effect_index := 0
          current_iterator := none
          effect_completed := false } }

/-- `EffectManager.get_next_frame`: re-create the effect if there is no
iterator, then `next()` it — a frame consumes one element; exhaustion
(`StopIteration`) sets `effect_completed` and returns `None`, leaving
the exhausted iterator in place. -/
def get_next_frame (fr : FrameCatalog) (m : EffectManager) : Option String × EffectManager :=
  let m' := if m.state.current_iterator = none then create_effect fr m else m
  match m'.state.current_iterator with
  | some (f :: rest) =>
    (some f, { m' with state := { m'.state with current_iterator := some rest } })
  | _ =>
    (none, { m' with state := { m'.state with effect_completed := true } })

/-- `k` consecutive `get_next_frame` pulls, returning the last result
and the final manager. -/
def pullN (fr : FrameCatalog) : Nat → EffectManager → Option String × EffectManager
  | 0, m => (none, m)
  | 1, m => get_next_frame fr m
  | k + 2, m => pullN fr (k + 1) (get_next_frame fr m).2

/-- `EffectManager.switch_to_next_effect`: with more than one enabled
effect, move `current_effect_index` to a random different index
(`random.choice` over the other indices, modelled by the opaque `pick`
parameter), then create the new effect. -/
def switch_to_next_effect (fr : FrameCatalog) (pick : List Nat → Nat)
    (m : EffectManager) : EffectManager :=
  let m' :=
    if 1 < m.enabled_effects.length then
      let current := m.state.current_effect_index
      let choices := (List.range m.enabled_effects.length).filter (fun i => i ≠ current)
      { m with state := { m.state with current_effect_index := pick choices } }
    else m
  create_effect fr m'

/-- The number of unread frames of the active session (0 when no
iterator exists). -/
def remaining_frames (m : EffectManager) : Nat :=
  match m.state.current_iterator with
  | some fs => fs.length
  | none => 0

/-- The renderer data `screensaver.py` consumes: glyph cell size (from
the font, external) and the background color. -/
structure RendererParams where
  char_width : Nat
  char_height : Nat
  background_color : RGB
deriving DecidableEq, Repr

/-- An operation issued to the display surface: the whole-window
background fill of `Screensaver.run`, or one glyph blit of
`render_frame`. -/
inductive DisplayOp where
  | fill (color : RGB)
  | draw (ch : Char) (color : RGB) (x y : Int)
deriving DecidableEq, Repr

/-- `ANSIRenderer.render_frame(frame, surface, offset_x, offset_y, ...)`:
parse the frame sparsely and blit every parsed cell at
`(offset_x + col*char_width, offset_y + row*char_height)` — a full
re-render of the frame, taking no previous cells. -/
def render_frame_ops (R : RendererParams) (frame : String)
    (offset_x offset_y : Int) (canvas_width canvas_height : Nat) : List DisplayOp :=
  (parse_ansi_frame_sparse frame canvas_width canvas_height).map
    (fun rc =>
      DisplayOp.draw rc.2.2.1 rc.2.2.2 (offset_x + rc.2.1 * (R.char_width : Int))
        (offset_y + rc.1 * (R.char_height : Int)))

/-- `screensaver.MonitorEffect`: one monitor's pixel offset, character
canvas, and effect manager. -/
structure MonitorEffect where
  offset_x : Int
  offset_y : Int
  canvas_width : Nat
  canvas_height : Nat
  effect_manager : EffectManager
deriving DecidableEq, Repr

/-- `screensaver.MonitorInfo`. -/
structure MonitorInfo where
  x : Int
  y : Int
  width : Nat
  height : Nat
deriving DecidableEq, Repr

/-- `config.Config`: the fields `screensaver.py` reads. -/
structure Config where
  ascii_art : String
  enabled_effects : List String
  font_size : Nat
  background_color : RGB
  target_fps : Nat
deriving DecidableEq, Repr

/-- The parameters `EffectManager.__init__` declares besides `self`
(effects.py lines 102-108). -/
def effect_manager_init_params : List String :=
  ["text", "enabled_effects", "canvas_width", "canvas_height"]

/-- The keyword arguments `MonitorEffect.__init__` passes to
`EffectManager(...)` (screensaver.py lines 116-122). -/
def monitor_effect_manager_call_kwargs : List String :=
  ["text", "enabled_effects", "canvas_width", "canvas_height", "start_index"]

/-- A Python keyword call binds without `TypeError` exactly when every
supplied keyword names a declared parameter. -/
def python_kwargs_accepted (params kwargs : List String) : Bool :=
  kwargs.all (fun k => params.contains k)

/-- `MonitorEffect.__init__(monitor, config, renderer, virtual_origin,
start_index)`: compute the pixel offset and character canvas, then
construct the per-monitor `EffectManager` — a keyword call that includes
`start_index=...`, modelled as `Except` so that an unbindable keyword
surfaces as the `TypeError` Python raises. -/
def mk_monitor_effect (shuffle : List String → List String) (fr : FrameCatalog)
    (monitor : MonitorInfo) (config : Config) (R : RendererParams)
    (virtual_origin : Int × Int) (start_index : Nat) : Except String MonitorEffect :=
  let offset_x := monitor.x - virtual_origin.1
  let offset_y := monitor.y - virtual_origin.2
  let cw := monitor.width / R.char_width
  let chh := monitor.height / R.char_height
  let _ := start_index
  if python_kwargs_accepted effect_manager_init_params monitor_effect_manager_call_kwargs then
    Except.ok
      { offset_x := offset_x
        offset_y := offset_y
        canvas_width := cw
        canvas_height := chh
        effect_manager :=
          effect_manager_init shuffle fr config.ascii_art config.enabled_effects cw chh }
  else
    Except.error "TypeError: EffectManager.__init__() got an unexpected keyword argument start_index"

/-- The frame-pulling prelude of `MonitorEffect.update_and_render`:
pull once; on `None`, switch to the next effect and pull once more.
Returns the frame (if any), whether a switch was invoked, and the
resulting manager. -/
def pull_frame_for_render (fr : FrameCatalog) (pick : List Nat → Nat)
    (m : EffectManager) : Option String × Bool × EffectManager :=
  match get_next_frame fr m with
  | (none, m1) =>
    let m2 := switch_to_next_effect fr pick m1
    (match get_next_frame fr m2 with
     | (f, m3) => (f, true, m3))
  | (some f, m1) => (some f, false, m1)

/-- The outcome of one `MonitorEffect.update_and_render` call. -/
structure RenderStep where
  ops : List DisplayOp
  switched : Bool
  monitor_effect : MonitorEffect
deriving DecidableEq, Repr

/-- `MonitorEffect.update_and_render(surface)`: pull (switching on
completion), then — `if frame:` — fully re-render the frame with
`render_frame` at the monitor's offset.  No previous `CellMap` is kept
or consulted; `render_frame_delta` is not called. -/
def update_and_render (fr : FrameCatalog) (pick : List Nat → Nat) (R : RendererParams)
    (me : MonitorEffect) : RenderStep :=
  match pull_frame_for_render fr pick me.effect_manager with
  | (fOpt, switched, m') =>
    { ops :=
        match fOpt with
        | some f =>
          if f.isEmpty then []
          else render_frame_ops R f me.offset_x me.offset_y me.canvas_width me.canvas_height
        | none => []
      switched := switched
      monitor_effect := { me with effect_manager := m' } }

/-- One iteration of the `while self.running` loop of `Screensaver.run`:
fill the whole window with the background color, then render every
monitor's effect independently, then present.  Returns the display
operations of the tick (in issue order) and the updated monitors. -/
def screensaver_tick (fr : FrameCatalog) (pick : List Nat → Nat) (R : RendererParams)
    (background : RGB) (monitors : List MonitorEffect) :
    List DisplayOp × List MonitorEffect :=
  let steps := monitors.map (update_and_render fr pick R)
  (DisplayOp.fill background :: (steps.map RenderStep.ops).flatten,
   steps.map RenderStep.monitor_effect)

/-- A `CellMap` with distinct keys — every dict `parse_to_dict` builds
has this, since `dictInsert` never duplicates a key. -/
def nodupKeys (m : CellMap) : Prop := (m.map Prod.fst).Nodup

instance nodupKeys_decidable (m : CellMap) : Decidable (nodupKeys m) :=
  inferInstanceAs (Decidable (m.map Prod.fst).Nodup)

/-- The cell content the last write to position `p` in a sparse cell
list leaves behind (`none` when no cell targets `p`): a later entry
overrides an earlier one. -/
def lastWrite (cells : List RawCell) (p : Pos) : Option CellData :=
  match cells with
  | [] => none
  | (row, col, ch, color) :: rest =>
    Option.or (lastWrite rest p) (if (row, col) = p then some (ch, color) else none)

/-- A two-identical-frame scenario: a catalog that yields no frames (the
preset iterator is what matters). -/
def tickFr : FrameCatalog := fun _ _ _ _ => []

/-- A fixed choice function standing in for `random.choice`. -/
def tickPick : List Nat → Nat := fun _ => 0

/-- A 10 x 20 pixel glyph cell on a black background. -/
def tickR : RendererParams :=
  { char_width := 10, char_height := 20, background_color := (0, 0, 0) }

/-- One monitor binding whose active session will yield the frame `"A"`
twice in a row. -/
def tickMonitor : MonitorEffect :=
  { offset_x := 0
    offset_y := 0
    canvas_width := 200
    canvas_height := 100
    effect_manager :=
      { text := "t"
        canvas_width := 200
        canvas_height := 100
        enabled_effects := ["Matrix"]
        state :=
          { current_effect_index := 0
            current_iterator := some ["A", "A"]
            effect_completed := false } } }

/-- The first clock tick of the scenario. -/
def tick1 : List DisplayOp × List MonitorEffect :=
  screensaver_tick tickFr tickPick tickR (0, 0, 0) [tickMonitor]

/-- The second clock tick, whose pulled frame `"A"` is identical to the
first tick's. -/
def tick2 : List DisplayOp × List MonitorEffect :=
  screensaver_tick tickFr tickPick tickR (0, 0, 0) tick1.2

/-- C1: the spec's supplied-start-index desynchronization is impossible
in the code: `MonitorEffect.__init__` forwards `start_index=...` to
`EffectManager(...)`, whose `__init__` declares no such parameter, so
every per-monitor construction raises `TypeError` instead of succeeding
and selecting the effect at that index. -/
theorem monitor_effect_construction_type_error :
    ∀ (shuffle : List String → List String) (fr : FrameCatalog)
      (monitor : MonitorInfo) (config : Config) (R : RendererParams)
      (virtual_origin : Int × Int) (start_index : Nat),
      mk_monitor_effect shuffle fr monitor config R virtual_origin start_index =
        Except.error
          "TypeError: EffectManager.__init__() got an unexpected keyword argument start_index" :=
  fun _ _ _ _ _ _ _ => rfl

set_option maxRecDepth 4096 in
/-- C3: `_xterm_to_rgb` realizes the documented 256-color formula on all
of `[0, 255]`: the basic/bright table below 16 (bright exactly when
`N ≥ 8`), the 6x6x6 cube scaled by 51 for `16 ≤ N < 232`, and the
grayscale ramp `(N-232)*10+8` above. -/
theorem xterm_to_rgb_palette_formula :
    ∀ n : Nat, n < 256 →
      (n < 16 → xterm_to_rgb n = basic_color (n % 8) (decide (8 ≤ n))) ∧
      (16 ≤ n → n < 232 →
        xterm_to_rgb n =
          ((n - 16) / 36 % 6 * 51, (n - 16) / 6 % 6 * 51, (n - 16) % 6 * 51)) ∧
      (232 ≤ n →
        xterm_to_rgb n =
          ((n - 232) * 10 + 8, (n - 232) * 10 + 8, (n - 232) * 10 + 8)) := by
  decide

/-- Witness for `xterm_to_rgb_palette_formula` at `N = 51` (a cube
color). -/
theorem xterm_to_rgb_palette_formula_witness :
    xterm_to_rgb 51 =
      ((51 - 16) / 36 % 6 * 51, (51 - 16) / 6 % 6 * 51, (51 - 16) % 6 * 51) :=
  (xterm_to_rgb_palette_formula 51 (by decide)).2.1 (by decide) (by decide)

/-- C6: the color resolver is total — in the embedding every branch of
`_parse_color_codes` yields a color, the source's `try/except` catching
each `ValueError` — and degrades rather than failing: an unparseable
field is skipped without touching the color, and truncated `38` / `38;2`
/ `38;5` sequences leave the current color unchanged. -/
theorem color_resolver_degrades_gracefully :
    (∀ (fuel : Nat) (bad : String) (rest : List String) (cur : RGB),
      pyInt? bad = none →
      parseColorLoop (fuel + 1) (bad :: rest) cur = parseColorLoop fuel rest cur) ∧
    (∀ (fuel : Nat) (s : String) (code : Nat) (rest : List String) (cur : RGB),
      pyInt? s = some code →
      code ≠ 0 → code ≠ 38 → ¬(30 ≤ code ∧ code ≤ 37) → ¬(90 ≤ code ∧ code ≤ 97) →
      parseColorLoop (fuel + 1) (s :: rest) cur = parseColorLoop fuel rest cur) ∧
    (∀ cur : RGB,
      parse_color_codes ["38"] cur = cur ∧
      parse_color_codes ["38", "2"] cur = cur ∧
      parse_color_codes ["38", "5"] cur = cur ∧
      parse_color_codes ["38", "2", "1", "2"] cur = cur ∧
      parse_color_codes ["38", "5", "xx"] cur = cur ∧
      parse_color_codes ["xx"] cur = cur ∧
      parse_color_codes ["99"] cur = cur) := by
  refine ⟨?_, ?_, ?_⟩
  · intro fuel bad rest cur h
    simp [parseColorLoop, h]
  · intro fuel s code rest cur hs h0 h38 h30 h90
    simp [parseColorLoop, hs, h0, h38, h30, h90]
  · intro cur
    exact ⟨rfl, rfl, rfl, rfl, rfl, rfl, rfl⟩

/-- Witness for `color_resolver_degrades_gracefully`: the skip rule at
the unparseable field `"xx"`, plus a truncated `38;5` keeping the
current color `(1, 2, 3)`. -/
theorem color_resolver_degrades_gracefully_witness :
    parseColorLoop 1 ["xx"] (1, 2, 3) = parseColorLoop 0 [] (1, 2, 3) ∧
    parseColorLoop 1 ["99"] (1, 2, 3) = parseColorLoop 0 [] (1, 2, 3) ∧
    parse_color_codes ["38", "5"] (1, 2, 3) = (1, 2, 3) :=
  ⟨color_resolver_degrades_gracefully.1 0 "xx" [] (1, 2, 3) (by decide),
   color_resolver_degrades_gracefully.2.1 0 "99" 99 [] (1, 2, 3) (by decide)
     (by decide) (by decide) (by decide) (by decide),
   (color_resolver_degrades_gracefully.2.2 (1, 2, 3)).2.2.1⟩

/-- C7: `EffectManager.__init__`'s schedule validation: the enabled
names are filtered against the catalog; when nothing survives the fixed
triple `["Matrix", "Rain", "Decrypt"]` is used, so the schedule is never
empty, and otherwise the schedule is exactly the configured names that
exist in the catalog (which the manager then shuffles). -/
theorem enabled_effects_fallback :
    ∀ enabled : List String,
      validate_enabled_effects enabled ≠ [] ∧
      (enabled.filter (fun name => available_effect_names.contains name) = [] →
        validate_enabled_effects enabled = fallback_effects) ∧
      (enabled.filter (fun name => available_effect_names.contains name) ≠ [] →
        validate_enabled_effects enabled =
          enabled.filter (fun name => available_effect_names.contains name)) ∧
      (∀ name ∈ validate_enabled_effects enabled,
        available_effect_names.contains name = true) ∧
      (∀ (shuffle : List String → List String) (fr : FrameCatalog)
        (text : String) (cw chh : Nat),
        (effect_manager_init shuffle fr text enabled cw chh).enabled_effects =
          shuffle (validate_enabled_effects enabled)) := by
  intro enabled
  by_cases h : enabled.filter (fun name => available_effect_names.contains name) = []
  · refine ⟨?_, fun _ => ?_, fun hne => absurd h hne, ?_, fun _ _ _ _ _ => rfl⟩
    · rw [validate_enabled_effects, if_pos h]
      decide
    · rw [validate_enabled_effects, if_pos h]
    · rw [validate_enabled_effects, if_pos h]
      decide
  · refine ⟨?_, fun h0 => absurd h0 h, fun _ => ?_, ?_, fun _ _ _ _ _ => rfl⟩
    · rw [validate_enabled_effects, if_neg h]
      exact h
    · rw [validate_enabled_effects, if_neg h]
    · rw [validate_enabled_effects, if_neg h]
      intro name hn
      exact (List.mem_filter.mp hn).2

/-- Witness for `enabled_effects_fallback`: an entirely invalid
configuration falls back to the fixed triple, and a mixed configuration
keeps exactly its valid name. -/
theorem enabled_effects_fallback_witness :
    validate_enabled_effects ["Bogus"] = fallback_effects ∧
    validate_enabled_effects ["Matrix", "Bogus"] = ["Matrix"] :=
  ⟨(enabled_effects_fallback ["Bogus"]).2.1 (by decide),
   ((enabled_effects_fallback ["Matrix", "Bogus"]).2.2.1 (by decide)).trans (by decide)⟩

/-- Dict lookup distributes over append: the left list wins. -/
theorem lookupCell_append (m1 m2 : CellMap) (p : Pos) :
    lookupCell (m1 ++ m2) p = Option.or (lookupCell m1 p) (lookupCell m2 p) := by
  induction m1 with
  | nil => simp [lookupCell, Option.or]
  | cons kv rest ih =>
    obtain ⟨k, v⟩ := kv
    by_cases h : k = p <;> simp [lookupCell, h, ih, Option.or]

/-- Replacing the value at key `k` in place leaves other keys' lookups
unchanged. -/
theorem lookupCell_map_replace (m : CellMap) (k : Pos) (v : CellData) (p : Pos)
    (hne : p ≠ k) :
    lookupCell (m.map (replaceEntry k v)) p = lookupCell m p := by
  induction m with
  | nil => rfl
  | cons kv rest ih =>
    obtain ⟨k0, v0⟩ := kv
    rw [List.map_cons]
    by_cases h0 : k0 = k
    · rw [show replaceEntry k v (k0, v0) = (k, v) from by simp [replaceEntry, h0]]
      rw [show lookupCell ((k, v) :: rest.map (replaceEntry k v)) p =
            if k = p then some v else lookupCell (rest.map (replaceEntry k v)) p from rfl]
      rw [show lookupCell ((k0, v0) :: rest) p =
            if k0 = p then some v0 else lookupCell rest p from rfl]
      rw [if_neg (Ne.symm hne), if_neg (fun h => hne (h0 ▸ h.symm)), ih]
    · rw [show replaceEntry k v (k0, v0) = (k0, v0) from by simp [replaceEntry, h0]]
      rw [show lookupCell ((k0, v0) :: rest.map (replaceEntry k v)) p =
            if k0 = p then some v0 else lookupCell (rest.map (replaceEntry k v)) p from rfl]
      rw [show lookupCell ((k0, v0) :: rest) p =
            if k0 = p then some v0 else lookupCell rest p from rfl]
      by_cases hp : k0 = p
      · rw [if_pos hp, if_pos hp]
      · rw [if_neg hp, if_neg hp, ih]

/-- Replacing the value at a present key `k` makes its lookup the new
value. -/
theorem lookupCell_map_replace_self (m : CellMap) (k : Pos) (v : CellData)
    (hc : containsKey m k = true) :
    lookupCell (m.map (replaceEntry k v)) k = some v := by
  induction m with
  | nil => simp [containsKey, lookupCell] at hc
  | cons kv rest ih =>
    obtain ⟨k0, v0⟩ := kv
    rw [List.map_cons]
    by_cases h0 : k0 = k
    · rw [show replaceEntry k v (k0, v0) = (k, v) from by simp [replaceEntry, h0]]
      rw [show lookupCell ((k, v) :: rest.map (replaceEntry k v)) k =
            if k = k then some v else lookupCell (rest.map (replaceEntry k v)) k from rfl]
      rw [if_pos rfl]
    · have hc' : containsKey rest k = true := by
        simpa [containsKey, lookupCell, h0] using hc
      rw [show replaceEntry k v (k0, v0) = (k0, v0) from by simp [replaceEntry, h0]]
      rw [show lookupCell ((k0, v0) :: rest.map (replaceEntry k v)) k =
            if k0 = k then some v0 else lookupCell (rest.map (replaceEntry k v)) k from rfl]
      rw [if_neg h0, ih hc']

/-- Python dict assignment, observed through lookup: the assigned key
reads back the new value, all other keys are untouched. -/
theorem lookupCell_dictInsert (m : CellMap) (k : Pos) (v : CellData) (p : Pos) :
    lookupCell (dictInsert m k v) p = if p = k then some v else lookupCell m p := by
  unfold dictInsert
  by_cases hc : containsKey m k
  · rw [if_pos hc]
    by_cases hp : p = k
    · subst hp
      rw [if_pos rfl, lookupCell_map_replace_self m p v hc]
    · rw [if_neg hp, lookupCell_map_replace m k v p hp]
  · rw [if_neg hc]
    rw [lookupCell_append]
    by_cases hp : p = k
    · subst hp
      have : lookupCell m p = none := by
        cases h : lookupCell m p with
        | none => rfl
        | some c => exact absurd (by simp [containsKey, h]) hc
      simp [this, lookupCell, Option.or]
    · cases h : lookupCell m p with
      | none => simp [hp, lookupCell, Ne.symm hp, Option.or]
      | some c => simp [hp, Option.or]

/-- The dict built by folding `dictInsert` over a cell list reads back,
at each position, the last write in the list, else whatever the starting
dict held. -/
theorem lookupCell_cellsToDict_aux (cells : List RawCell) (m : CellMap) (p : Pos) :
    lookupCell
      (cells.foldl (fun m rc => dictInsert m (rc.1, rc.2.1) (rc.2.2.1, rc.2.2.2)) m) p =
      Option.or (lastWrite cells p) (lookupCell m p) := by
  induction cells generalizing m with
  | nil => simp [lastWrite, Option.or]
  | cons rc cells ih =>
    obtain ⟨row, col, ch, color⟩ := rc
    rw [List.foldl_cons, ih, lookupCell_dictInsert]
    have hstep :
        lastWrite ((row, col, ch, color) :: cells) p =
          Option.or (lastWrite cells p)
            (if (row, col) = p then some (ch, color) else none) := rfl
    by_cases hp : (row, col) = p
    · rw [hstep, if_pos hp, if_pos hp.symm, Option.or_assoc]
      rfl
    · rw [hstep, if_neg hp, Option.or_none, if_neg (fun h => hp h.symm)]

/-- C10: `parse_to_dict`'s dict comprehension is last-writer-wins: at
every position the resulting CellMap holds the cell emitted latest in
the frame, and concretely the frame `A ESC[1;1H B`, which emits `'A'`
then `'B'` at `(0, 0)`, parses to the single cell `('B', white)`. -/
theorem parse_to_dict_last_writer_wins :
    (∀ (cells : List RawCell) (p : Pos),
      lookupCell (cellsToDict cells) p = lastWrite cells p) ∧
    parse_to_dict "A\x1b[1;1HB" 200 100 = [((0, 0), ('B', default_fg_color))] := by
  constructor
  · intro cells p
    have h := lookupCell_cellsToDict_aux cells [] p
    simpa [cellsToDict, lookupCell, Option.or_none] using h
  · rfl

/-- A position looks up successfully exactly when some entry carries it. -/
theorem lookupCell_isSome_iff (m : CellMap) (p : Pos) :
    (lookupCell m p).isSome = true ↔ p ∈ m.map Prod.fst := by
  induction m with
  | nil => simp [lookupCell]
  | cons kv rest ih =>
    obtain ⟨k, v⟩ := kv
    rw [show lookupCell ((k, v) :: rest) p =
        if k = p then some v else lookupCell rest p from rfl]
    rw [List.map_cons, List.mem_cons]
    by_cases h : k = p
    · rw [if_pos h]
      simp [h.symm]
    · rw [if_neg h]
      constructor
      · intro hs
        exact Or.inr (ih.mp hs)
      · rintro (heq | hmem)
        · exact absurd heq.symm h
        · exact ih.mpr hmem

/-- A successful lookup comes from an entry of the list. -/
theorem lookupCell_mem (m : CellMap) (p : Pos) (c : CellData)
    (h : lookupCell m p = some c) : (p, c) ∈ m := by
  induction m with
  | nil => simp [lookupCell] at h
  | cons kv rest ih =>
    obtain ⟨k, v⟩ := kv
    rw [show lookupCell ((k, v) :: rest) p =
        if k = p then some v else lookupCell rest p from rfl] at h
    by_cases hk : k = p
    · rw [if_pos hk] at h
      injection h with hvc
      subst hk
      subst hvc
      exact List.mem_cons_self _ _
    · rw [if_neg hk] at h
      exact List.mem_cons_of_mem _ (ih h)

/-- With distinct keys, every entry is what its key looks up to. -/
theorem mem_lookupCell (m : CellMap) (p : Pos) (c : CellData)
    (hn : nodupKeys m) (h : (p, c) ∈ m) : lookupCell m p = some c := by
  induction m with
  | nil => simp at h
  | cons kv rest ih =>
    obtain ⟨k, v⟩ := kv
    have hn' : nodupKeys rest := (List.nodup_cons.mp hn).2
    rw [show lookupCell ((k, v) :: rest) p =
        if k = p then some v else lookupCell rest p from rfl]
    rcases List.mem_cons.mp h with heq | hmem
    · cases heq
      rw [if_pos rfl]
    · by_cases hk : k = p
      · subst hk
        exact absurd (List.mem_map.mpr ⟨(k, c), hmem, rfl⟩) (List.nodup_cons.mp hn).1
      · rw [if_neg hk]
        exact ih hn' hmem

/-- Key absence, phrased through `containsKey` and through `lookupCell`. -/
theorem containsKey_false_iff (m : CellMap) (p : Pos) :
    containsKey m p = false ↔ lookupCell m p = none := by
  unfold containsKey
  cases lookupCell m p <;> simp

/-- C4: the frame diff engine of `render_frame_delta`: cleared positions
are exactly the vanished keys plus the in-both-but-changed keys, drawn
cells are exactly the new-or-changed entries of `curr`, an unchanged
cell triggers no operation (diffing a map against itself is empty), and
the parsed current map is returned as the next frame's `prev`. -/
theorem frame_diff_characterization :
    ∀ prev curr : CellMap, nodupKeys prev → nodupKeys curr →
      (∀ p : Pos,
        p ∈ clear_positions prev curr ↔
          ((lookupCell prev p).isSome = true ∧ lookupCell curr p = none) ∨
          (∃ c c', lookupCell prev p = some c ∧ lookupCell curr p = some c' ∧ c ≠ c')) ∧
      (∀ (p : Pos) (c : CellData),
        (p, c) ∈ draw_cells prev curr ↔
          lookupCell curr p = some c ∧ lookupCell prev p ≠ some c) ∧
      clear_positions curr curr = [] ∧
      draw_cells curr curr = [] ∧
      (∀ (frame : String) (cw chh : Nat),
        (render_frame_delta frame prev cw chh).next = parse_to_dict frame cw chh) := by
  intro prev curr hp hc
  refine ⟨?_, ?_, ?_, ?_, fun _ _ _ => rfl⟩
  · intro p
    constructor
    · intro hmem
      rcases List.mem_append.mp hmem with h1 | h2
      · left
        rcases List.mem_filter.mp h1 with ⟨hmap, hq⟩
        refine ⟨(lookupCell_isSome_iff prev p).mpr hmap, ?_⟩
        have hfalse : containsKey curr p = false := by
          cases hcc : containsKey curr p
          · rfl
          · rw [hcc] at hq
            simp at hq
        exact (containsKey_false_iff curr p).mp hfalse
      · right
        rcases List.mem_map.mp h2 with ⟨⟨q, c⟩, hmemf, hq⟩
        cases hq
        rcases List.mem_filter.mp hmemf with ⟨hqc, hpred⟩
        cases hl : lookupCell prev q with
        | none => rw [hl] at hpred; simp at hpred
        | some cp =>
          rw [hl] at hpred
          exact ⟨cp, c, rfl, mem_lookupCell curr q c hc hqc, by simpa using hpred⟩
    · intro hdisj
      rcases hdisj with ⟨hsome, hnone⟩ | ⟨c, c', hlp, hlc, hne⟩
      · apply List.mem_append.mpr
        left
        apply List.mem_filter.mpr
        refine ⟨(lookupCell_isSome_iff prev p).mp hsome, ?_⟩
        rw [(containsKey_false_iff curr p).mpr hnone]
        rfl
      · apply List.mem_append.mpr
        right
        apply List.mem_map.mpr
        refine ⟨(p, c'), List.mem_filter.mpr ⟨lookupCell_mem curr p c' hlc, ?_⟩, rfl⟩
        rw [hlp]
        simpa using hne
  · intro p c
    constructor
    · intro hmem
      rcases List.mem_filter.mp hmem with ⟨hin, hpred⟩
      exact ⟨mem_lookupCell curr p c hc hin, by simpa using hpred⟩
    · rintro ⟨hlc, hne⟩
      exact List.mem_filter.mpr ⟨lookupCell_mem curr p c hlc, by simpa using hne⟩
  · unfold clear_positions
    rw [List.append_eq_nil]
    constructor
    · rw [List.filter_eq_nil_iff]
      intro q hq
      have : (lookupCell curr q).isSome = true := (lookupCell_isSome_iff curr q).mpr hq
      simp [containsKey, this]
    · rw [List.map_eq_nil_iff, List.filter_eq_nil_iff]
      rintro ⟨q, c⟩ hq
      rw [mem_lookupCell curr q c hc hq]
      simp
  · unfold draw_cells
    rw [List.filter_eq_nil_iff]
    rintro ⟨q, c⟩ hq
    rw [mem_lookupCell curr q c hc hq]
    simp

/-- Witness for `frame_diff_characterization`, at the spec's minimality
example `prev = {(0,0): (X, red)}`,
`curr = {(0,0): (X, red), (0,1): (Y, blue)}`: the draw-set membership
characterization for the one new cell. -/
theorem frame_diff_characterization_witness :
    (((0, 1), ('Y', (0, 0, 170))) ∈
        draw_cells [((0, 0), ('X', (170, 0, 0)))]
          [((0, 0), ('X', (170, 0, 0))), ((0, 1), ('Y', (0, 0, 170)))]) ↔
      (lookupCell [((0, 0), ('X', (170, 0, 0))), ((0, 1), ('Y', (0, 0, 170)))] (0, 1) =
          some ('Y', (0, 0, 170)) ∧
        lookupCell [((0, 0), ('X', (170, 0, 0)))] (0, 1) ≠ some ('Y', (0, 0, 170))) :=
  (frame_diff_characterization [((0, 0), ('X', (170, 0, 0)))]
      [((0, 0), ('X', (170, 0, 0))), ((0, 1), ('Y', (0, 0, 170)))]
      (by decide) (by decide)).2.1 (0, 1) ('Y', (0, 0, 170))

/-- A pull that reports completion leaves an exhausted iterator in
place: the session it reported on has no unread frames, and the
completed flag is set. -/
theorem pull_none_no_frames (fr : FrameCatalog) (m m' : EffectManager)
    (h : get_next_frame fr m = (none, m')) :
    m'.state.current_iterator = some [] ∧ m'.state.effect_completed = true := by
  by_cases hit : m.state.current_iterator = none
  · cases hl : fr (m.enabled_effects.getD m.state.current_effect_index (String.mk []))
        m.text m.canvas_width m.canvas_height with
    | nil =>
      have hval : get_next_frame fr m =
          (none,
            { m with state :=
              { current_effect_index := m.state.current_effect_index
                current_iterator := some []
                effect_completed := true } }) := by
        unfold get_next_frame create_effect
        rw [if_pos hit, hl]
      rw [hval] at h
      rw [← ((Prod.mk.injEq _ _ _ _).mp h).2]
      exact ⟨rfl, rfl⟩
    | cons f rest =>
      have hval : get_next_frame fr m =
          (some f,
            { m with state :=
              { current_effect_index := m.state.current_effect_index
                current_iterator := some rest
                effect_completed := false } }) := by
        unfold get_next_frame create_effect
        rw [if_pos hit, hl]
      rw [hval] at h
      simp at h
  · obtain ⟨l, hl0⟩ : ∃ l, m.state.current_iterator = some l := by
      cases hx : m.state.current_iterator with
      | none => exact absurd hx hit
      | some l => exact ⟨l, rfl⟩
    cases l with
    | nil =>
      have hval : get_next_frame fr m =
          (none, { m with state := { m.state with effect_completed := true } }) := by
        simp [get_next_frame, hit, hl0]
      rw [hval] at h
      rw [← ((Prod.mk.injEq _ _ _ _).mp h).2]
      exact ⟨hl0, rfl⟩
    | cons f rest =>
      have hval : get_next_frame fr m =
          (some f, { m with state := { m.state with current_iterator := some rest } }) := by
        simp [get_next_frame, hit, hl0]
      rw [hval] at h
      simp at h

/-- Pulling again on a completed manager returns `None` and changes
nothing: the completed state is a fixed point of `get_next_frame`. -/
theorem pull_after_completed (fr : FrameCatalog) (m m' : EffectManager)
    (h : get_next_frame fr m = (none, m')) :
    get_next_frame fr m' = (none, m') := by
  obtain ⟨hit, hcomp⟩ := pull_none_no_frames fr m m' h
  have hval : get_next_frame fr m' =
      (none, { m' with state := { m'.state with effect_completed := true } }) := by
    simp [get_next_frame, hit]
  rw [hval]
  obtain ⟨t, w, hh, e, i, it, c⟩ := m'
  simp only at hcomp
  rw [hcomp]

/-- C8: once the underlying algorithm signals exhaustion, the session is
terminally completed: the pull that returned the `None` sentinel leaves
a manager on which every subsequent pull returns `None` again with the
state unchanged — a session is never un-completed (only
`_create_effect`, reached through an effect switch, makes a new one). -/
theorem pull_completed_idempotent :
    ∀ (fr : FrameCatalog) (m m' : EffectManager),
      get_next_frame fr m = (none, m') →
      m'.state.effect_completed = true ∧
      ∀ k : Nat, pullN fr (k + 1) m' = (none, m') := by
  intro fr m m' h
  have hstep := pull_after_completed fr m m' h
  refine ⟨(pull_none_no_frames fr m m' h).2, ?_⟩
  intro k
  induction k with
  | zero => simpa [pullN] using hstep
  | succ k ih =>
    rw [show pullN fr (k + 1 + 1) m' = pullN fr (k + 1) (get_next_frame fr m').2 from rfl]
    rw [hstep]
    exact ih

/-- Witness for `pull_completed_idempotent`: a session whose iterator is
exhausted; the pull that reports it leaves a manager whose next pull is
again the sentinel with no state change. -/
theorem pull_completed_idempotent_witness :
    pullN (fun _ _ _ _ => []) 1
        { text := "t", canvas_width := 1, canvas_height := 1,
          enabled_effects := ["Matrix"],
          state := { current_effect_index := 0, current_iterator := some [],
                     effect_completed := true } } =
      (none,
        { text := "t", canvas_width := 1, canvas_height := 1,
          enabled_effects := ["Matrix"],
          state := { current_effect_index := 0, current_iterator := some [],
                     effect_completed := true } }) :=
  (pull_completed_idempotent (fun _ _ _ _ => [])
      { text := "t", canvas_width := 1, canvas_height := 1,
        enabled_effects := ["Matrix"],
        state := { current_effect_index := 0, current_iterator := some [],
                   effect_completed := false } }
      { text := "t", canvas_width := 1, canvas_height := 1,
        enabled_effects := ["Matrix"],
        state := { current_effect_index := 0, current_iterator := some [],
                   effect_completed := true } }
      (by rfl)).2 0

/-- C9: within one monitor an effect switch happens only after the
active session reported completion: whenever `update_and_render` invokes
`switch_to_next_effect`, the pull that preceded it returned the `None`
sentinel and left a session with zero unread frames — no frame of the
active session is ever discarded by a switch. -/
theorem switch_only_after_completion :
    ∀ (fr : FrameCatalog) (pick : List Nat → Nat) (R : RendererParams)
      (me : MonitorEffect),
      (update_and_render fr pick R me).switched = true →
      (get_next_frame fr me.effect_manager).1 = none ∧
      remaining_frames (get_next_frame fr me.effect_manager).2 = 0 := by
  intro fr pick R me hsw
  cases hp : get_next_frame fr me.effect_manager with
  | mk f1 m1 =>
    cases f1 with
    | none =>
      have hfr := pull_none_no_frames fr me.effect_manager m1 hp
      exact ⟨rfl, by simp [remaining_frames, hfr.1]⟩
    | some f =>
      exfalso
      have hval : (update_and_render fr pick R me).switched = false := by
        simp [update_and_render, pull_frame_for_render, hp]
      rw [hval] at hsw
      exact Bool.false_ne_true hsw

/-- Witness for `switch_only_after_completion`: a monitor whose active
session is exhausted; the tick switches, and indeed the preceding pull
returned the sentinel on a session with no unread frames. -/
theorem switch_only_after_completion_witness :
    (get_next_frame (fun _ _ _ _ => ["F"])
        { text := "t", canvas_width := 5, canvas_height := 5,
          enabled_effects := ["Matrix"],
          state := { current_effect_index := 0, current_iterator := some [],
                     effect_completed := false } }).1 = none ∧
    remaining_frames
        (get_next_frame (fun _ _ _ _ => ["F"])
          { text := "t", canvas_width := 5, canvas_height := 5,
            enabled_effects := ["Matrix"],
            state := { current_effect_index := 0, current_iterator := some [],
                       effect_completed := false } }).2 = 0 :=
  switch_only_after_completion (fun _ _ _ _ => ["F"]) (fun _ => 0)
    { char_width := 1, char_height := 1, background_color := (0, 0, 0) }
    { offset_x := 0, offset_y := 0, canvas_width := 5, canvas_height := 5,
      effect_manager :=
        { text := "t", canvas_width := 5, canvas_height := 5,
          enabled_effects := ["Matrix"],
          state := { current_effect_index := 0, current_iterator := some [],
                     effect_completed := false } } }
    (by rfl)

/-- C2 counterexample: with an active session yielding the frame `"A"`
twice, the second tick's frame is identical to the first's — the
frame-to-frame diff is empty — yet the tick still issues a whole-window
background fill plus a fresh draw of the unchanged cell `(0, 0)`:
per-tick rendering does not touch only changed cells, because
`update_and_render` calls the full `render_frame` (and `Screensaver.run`
clears the screen) instead of diffing against a stored previous CellMap
with `render_frame_delta`. -/
theorem per_tick_rendering_not_delta :
    clear_positions (parse_to_dict "A" 200 100) (parse_to_dict "A" 200 100) = [] ∧
    draw_cells (parse_to_dict "A" 200 100) (parse_to_dict "A" 200 100) = [] ∧
    tick2.1 = [DisplayOp.fill (0, 0, 0), DisplayOp.draw 'A' (255, 255, 255) 0 0] :=
  ⟨rfl, rfl, rfl⟩

/-- C2 (amended): on each tick the coordinator fills the whole window
with the background color and then fully re-renders each binding's
pulled frame: the ops of `update_and_render` are exactly
`render_frame_ops` of the current frame — one draw per parsed cell,
translated by the monitor's pixel offset, independent of any previous
frame — and never the output of the (unused) delta engine. -/
theorem screensaver_tick_full_repaint :
    ∀ (fr : FrameCatalog) (pick : List Nat → Nat) (R : RendererParams) (bg : RGB)
      (monitors : List MonitorEffect),
      (screensaver_tick fr pick R bg monitors).1.head? = some (DisplayOp.fill bg) ∧
      ∀ (me : MonitorEffect) (f : String),
        (pull_frame_for_render fr pick me.effect_manager).1 = some f →
        f.isEmpty = false →
        (update_and_render fr pick R me).ops =
          render_frame_ops R f me.offset_x me.offset_y me.canvas_width me.canvas_height ∧
        ∀ (row col : Int) (ch : Char) (color : RGB),
          (row, col, ch, color) ∈ parse_ansi_frame_sparse f me.canvas_width me.canvas_height →
          DisplayOp.draw ch color (me.offset_x + col * (R.char_width : Int))
              (me.offset_y + row * (R.char_height : Int)) ∈
            (update_and_render fr pick R me).ops := by
  intro fr pick R bg monitors
  refine ⟨rfl, ?_⟩
  intro me f hf hne
  have hops : (update_and_render fr pick R me).ops =
      render_frame_ops R f me.offset_x me.offset_y me.canvas_width me.canvas_height := by
    rcases hp : pull_frame_for_render fr pick me.effect_manager with ⟨f1, sw, m1⟩
    rw [hp] at hf
    have hf1 : f1 = some f := hf
    subst hf1
    simp [update_and_render, hp, hne]
  refine ⟨hops, ?_⟩
  intro row col ch color hmem
  rw [hops]
  unfold render_frame_ops
  exact List.mem_map.mpr ⟨(row, col, ch, color), hmem, rfl⟩

/-- Witness for `screensaver_tick_full_repaint`: in the two-frame
scenario the pulled frame `"A"` has its one parsed cell drawn at the
monitor's origin. -/
theorem screensaver_tick_full_repaint_witness :
    DisplayOp.draw 'A' (255, 255, 255) 0 0 ∈
      (update_and_render tickFr tickPick tickR tickMonitor).ops :=
  ((screensaver_tick_full_repaint tickFr tickPick tickR (0, 0, 0) []).2
    tickMonitor "A" rfl rfl).2 0 0 'A' (255, 255, 255) (by decide)

/-- A run of characters satisfying `p`, followed by a character that
does not, splits `takeWhile` / `dropWhile` at exactly that point. -/
theorem takeWhile_dropWhile_run (p : Char → Bool) (d : List Char) (x : Char)
    (t : List Char) (hd : ∀ c ∈ d, p c = true) (hx : p x = false) :
    (d ++ x :: t).takeWhile p = d ∧ (d ++ x :: t).dropWhile p = x :: t := by
  induction d with
  | nil => simp [List.takeWhile_cons, List.dropWhile_cons, hx]
  | cons c d ih =>
    have hc : p c = true := hd c (List.mem_cons_self _ _)
    have hrest : ∀ c ∈ d, p c = true := fun c h => hd c (List.mem_cons_of_mem _ h)
    obtain ⟨h1, h2⟩ := ih hrest
    constructor
    · rw [List.cons_append, List.takeWhile_cons, hc]
      simp [h1]
    · rw [List.cons_append, List.dropWhile_cons, hc]
      simpa using h2

/-- `ANSI_CURSOR_POS` matches `<digits> ; <digits> H` right after
`ESC [`, capturing the two numbers and leaving the rest. -/
theorem matchCursorPos_digits (d1 d2 rest : List Char)
    (h1 : d1 ≠ []) (hd1 : ∀ c ∈ d1, c.isDigit = true)
    (h2 : d2 ≠ []) (hd2 : ∀ c ∈ d2, c.isDigit = true) :
    matchCursorPos (d1 ++ (';' :: (d2 ++ ('H' :: rest)))) =
      some (digitsToNat d1, digitsToNat d2, rest) := by
  obtain ⟨ht1, hw1⟩ :=
    takeWhile_dropWhile_run Char.isDigit d1 ';' (d2 ++ ('H' :: rest)) hd1 (by decide)
  obtain ⟨ht2, hw2⟩ := takeWhile_dropWhile_run Char.isDigit d2 'H' rest hd2 (by decide)
  have he1 : d1.isEmpty = false := by
    cases d1 with
    | nil => exact absurd rfl h1
    | cons c d => rfl
  have he2 : d2.isEmpty = false := by
    cases d2 with
    | nil => exact absurd rfl h2
    | cons c d => rfl
  unfold matchCursorPos
  rw [ht1, hw1]
  simp [ht2, hw2, he1, he2]

/-- C5: the escape interpreter converts the 1-indexed `ESC[row;colH`
wire format to the 0-indexed model — scanning such a sequence continues
with `cursor_row = row - 1`, `cursor_col = col - 1` and emits nothing —
and concretely `ESC[2;3HA` then `ESC[2;4HB` with no color code parses to
exactly the cells `(1,2) : (A, white)` and `(1,3) : (B, white)` with the
default white foreground. -/
theorem cursor_position_zero_indexed :
    (∀ (fuel : Nat) (d1 d2 rest : List Char) (color : RGB) (row col : Int)
      (cw chh : Nat),
      d1 ≠ [] → (∀ c ∈ d1, c.isDigit = true) →
      d2 ≠ [] → (∀ c ∈ d2, c.isDigit = true) →
      parseLoop (fuel + 1) ('\x1b' :: '[' :: (d1 ++ (';' :: (d2 ++ ('H' :: rest)))))
          color row col cw chh =
        parseLoop fuel rest color ((digitsToNat d1 : Int) - 1)
          ((digitsToNat d2 : Int) - 1) cw chh) ∧
    parse_to_dict "\x1b[2;3HA\x1b[2;4HB" 200 100 =
      [((1, 2), ('A', default_fg_color)), ((1, 3), ('B', default_fg_color))] := by
  constructor
  · intro fuel d1 d2 rest color row col cw chh h1 hd1 h2 hd2
    have hm := matchCursorPos_digits d1 d2 rest h1 hd1 h2 hd2
    simp [parseLoop, hm]
  · rfl

/-- Witness for `cursor_position_zero_indexed`: the step rule applied to
the literal sequence `ESC[2;3H` (digit runs `['2']` and `['3']`). -/
theorem cursor_position_zero_indexed_witness :
    parseLoop 1 ('\x1b' :: '[' :: (['2'] ++ (';' :: (['3'] ++ ('H' :: [])))))
        (255, 255, 255) 0 0 200 100 =
      parseLoop 0 [] (255, 255, 255) ((digitsToNat ['2'] : Int) - 1)
        ((digitsToNat ['3'] : Int) - 1) 200 100 :=
  cursor_position_zero_indexed.1 0 ['2'] ['3'] [] (255, 255, 255) 0 0 200 100
    (by decide) (by decide) (by decide) (by decide)

/-- Fuel adequacy for the color-code loop: any fuel of at least the
list's length gives the same answer, so the fuel-exhausted arm is
unreachable from `parse_color_codes` (which supplies exactly
`codes.length`). -/
theorem parseColorLoop_fuel :
    ∀ (n : Nat) (codes : List String) (f1 f2 : Nat) (cur : RGB),
      codes.length ≤ n → codes.length ≤ f1 → codes.length ≤ f2 →
      parseColorLoop f1 codes cur = parseColorLoop f2 codes cur := by
  intro n
  induction n with
  | zero =>
    intro codes f1 f2 cur hn _ _
    have hnil : codes = [] := List.length_eq_zero.mp (Nat.le_zero.mp hn)
    subst hnil
    cases f1 <;> cases f2 <;> rfl
  | succ n ih =>
    intro codes f1 f2 cur hn h1 h2
    cases codes with
    | nil => cases f1 <;> cases f2 <;> rfl
    | cons c rest =>
      cases f1 with
      | zero => simp at h1
      | succ a =>
        cases f2 with
        | zero => simp at h2
        | succ b =>
          have hra : rest.length ≤ a := by simpa using h1
          have hrb : rest.length ≤ b := by simpa using h2
          have hrn : rest.length ≤ n := by simpa using hn
          cases hc : pyInt? c with
          | none =>
            simp only [parseColorLoop, hc]
            exact ih rest a b cur hrn hra hrb
          | some code =>
            simp only [parseColorLoop, hc]
            by_cases h0 : code = 0
            · rw [if_pos h0, if_pos h0]
            · rw [if_neg h0, if_neg h0]
              by_cases h38 : code = 38
              · rw [if_pos h38, if_pos h38]
                cases rest with
                | nil => cases a <;> cases b <;> rfl
                | cons ct rest2 =>
                  simp only []
                  cases hct : pyInt? ct with
                  | none =>
                    simp only []
                    exact ih (ct :: rest2) a b cur hrn hra hrb
                  | some color_type =>
                    simp only []
                    by_cases hv2 : color_type = 2
                    · rw [if_pos hv2, if_pos hv2]
                      cases rest2 with
                      | nil =>
                        simp only []
                        exact ih (ct :: []) a b cur hrn hra hrb
                      | cons r rest3 =>
                        cases rest3 with
                        | nil =>
                          simp only []
                          exact ih (ct :: [r]) a b cur hrn hra hrb
                        | cons g rest4 =>
                          cases rest4 with
                          | nil =>
                            simp only []
                            exact ih (ct :: [r, g]) a b cur hrn hra hrb
                          | cons bb rest5 =>
                            simp only []
                            have h5 : rest5.length ≤ n ∧ rest5.length ≤ a ∧
                                rest5.length ≤ b := by
                              simp at hrn hra hrb
                              omega
                            cases pyInt? r <;> cases pyInt? g <;> cases pyInt? bb <;>
                              simp only [] <;>
                              first
                                | rfl
                                | exact ih rest5 a b cur h5.1 h5.2.1 h5.2.2
                    · rw [if_neg hv2, if_neg hv2]
                      by_cases hv5 : color_type = 5
                      · rw [if_pos hv5, if_pos hv5]
                        cases rest2 with
                        | nil =>
                          simp only []
                          exact ih (ct :: []) a b cur hrn hra hrb
                        | cons nn rest3 =>
                          simp only []
                          have h3 : rest3.length ≤ n ∧ rest3.length ≤ a ∧
                              rest3.length ≤ b := by
                            simp at hrn hra hrb
                            omega
                          cases pyInt? nn with
                          | none => exact ih rest3 a b cur h3.1 h3.2.1 h3.2.2
                          | some nv => rfl
                      · rw [if_neg hv5, if_neg hv5]
                        exact ih (ct :: rest2) a b cur hrn hra hrb
              · rw [if_neg h38, if_neg h38]
                by_cases h30 : 30 ≤ code ∧ code ≤ 37
                · rw [if_pos h30, if_pos h30]
                · rw [if_neg h30, if_neg h30]
                  by_cases h90 : 90 ≤ code ∧ code ≤ 97
                  · rw [if_pos h90, if_pos h90]
                  · rw [if_neg h90, if_neg h90]
                    exact ih rest a b cur hrn hra hrb

/-- Dropping a prefix never lengthens a list. -/
theorem length_dropWhile_le' {α : Type} (p : α → Bool) (l : List α) :
    (l.dropWhile p).length ≤ l.length := by
  induction l with
  | nil => simp
  | cons a l ih =>
    rw [List.dropWhile_cons]
    by_cases h : p a = true
    · simp only [h, if_true]
      exact Nat.le_succ_of_le ih
    · simp [h]

/-- A successful cursor-position match leaves a suffix no longer than
its input. -/
theorem matchCursorPos_suffix (cs : List Char) (r c : Nat) (rest : List Char)
    (h : matchCursorPos cs = some (r, c, rest)) : rest.length ≤ cs.length := by
  unfold matchCursorPos at h
  simp only [] at h
  split at h
  · exact absurd h (by simp)
  · split at h
    · split at h
      · exact absurd h (by simp)
      · split at h
        · rename_i r2 _ _ hd2 r4 hd4
          injection h with h'
          injection h' with h1 h2
          injection h2 with h3 h4
          subst h4
          have l1 : ((';' :: r2).length : Nat) ≤ cs.length := by
            rw [← ‹cs.dropWhile Char.isDigit = ';' :: r2›]
            exact length_dropWhile_le' Char.isDigit cs
          have l2 : (('H' :: r4).length : Nat) ≤ r2.length := by
            rw [← hd4]
            exact length_dropWhile_le' Char.isDigit r2
          simp at l1 l2
          omega
        · exact absurd h (by simp)
    · exact absurd h (by simp)

/-- A successful color match leaves a suffix no longer than its input. -/
theorem matchColor_suffix (cs params rest : List Char)
    (h : matchColor cs = some (params, rest)) : rest.length ≤ cs.length := by
  unfold matchColor at h
  split at h
  · rename_i r hd
    injection h with h'
    injection h' with h1 h2
    have l1 : (('m' :: r).length : Nat) ≤ cs.length := by
      rw [← hd]
      exact length_dropWhile_le' isParamChar cs
    simp at l1
    rw [← h2]
    omega
  · exact absurd h (by simp)

/-- A successful generic-ANSI match leaves a suffix no longer than its
input. -/
theorem matchAnsiAny_suffix (cs rest : List Char)
    (h : matchAnsiAny cs = some rest) : rest.length ≤ cs.length := by
  unfold matchAnsiAny at h
  split at h
  · rename_i c r hd
    by_cases ha : c.isAlpha = true
    · rw [if_pos ha] at h
      injection h with h'
      have l1 : ((c :: r).length : Nat) ≤ cs.length := by
        rw [← hd]
        exact length_dropWhile_le' isParamChar cs
      simp at l1
      rw [← h']
      omega
    · rw [if_neg ha] at h
      exact absurd h (by simp)
  · exact absurd h (by simp)

/-- Fuel adequacy for the escape-interpreter scan: every loop iteration
consumes at least one character, so any fuel of at least the frame's
length gives the same cell list — the fuel-exhausted arm is unreachable
from `parse_ansi_frame_sparse` (which supplies exactly the length). -/
theorem parseLoop_fuel :
    ∀ (n : Nat) (cs : List Char) (f1 f2 : Nat) (color : RGB) (row col : Int)
      (cw chh : Nat),
      cs.length ≤ n → cs.length ≤ f1 → cs.length ≤ f2 →
      parseLoop f1 cs color row col cw chh = parseLoop f2 cs color row col cw chh := by
  intro n
  induction n with
  | zero =>
    intro cs f1 f2 color row col cw chh hn _ _
    have hnil : cs = [] := List.length_eq_zero.mp (Nat.le_zero.mp hn)
    subst hnil
    cases f1 <;> cases f2 <;> rfl
  | succ n ih =>
    intro cs f1 f2 color row col cw chh hn h1 h2
    cases cs with
    | nil => cases f1 <;> cases f2 <;> rfl
    | cons c rest =>
      cases f1 with
      | zero => simp at h1
      | succ a =>
        cases f2 with
        | zero => simp at h2
        | succ b =>
          have hra : rest.length ≤ a := by simpa using h1
          have hrb : rest.length ≤ b := by simpa using h2
          have hrn : rest.length ≤ n := by simpa using hn
          by_cases hesc : ∃ cs2, c = '\x1b' ∧ rest = '[' :: cs2
          · obtain ⟨cs2, hc, hr⟩ := hesc
            subst hc
            subst hr
            rw [parseLoop.eq_3, parseLoop.eq_3]
            have hca : cs2.length + 1 ≤ a := by simpa using hra
            have hcb : cs2.length + 1 ≤ b := by simpa using hrb
            have hcn : cs2.length + 1 ≤ n := by simpa using hrn
            cases hm : matchCursorPos cs2 with
            | some out =>
              obtain ⟨r, c', rest'⟩ := out
              have hs := matchCursorPos_suffix cs2 r c' rest' hm
              simp only []
              exact ih rest' a b _ _ _ _ _ (by omega) (by omega) (by omega)
            | none =>
              simp only []
              cases hm2 : matchColor cs2 with
              | some out =>
                obtain ⟨params, rest'⟩ := out
                have hs := matchColor_suffix cs2 params rest' hm2
                simp only []
                exact ih rest' a b _ _ _ _ _ (by omega) (by omega) (by omega)
              | none =>
                simp only []
                cases hm3 : matchAnsiAny cs2 with
                | some rest' =>
                  have hs := matchAnsiAny_suffix cs2 rest' hm3
                  simp only []
                  exact ih rest' a b _ _ _ _ _ (by omega) (by omega) (by omega)
                | none =>
                  simp only []
                  exact congrArg (emitCell '\x1b' color row col cw chh ++ ·)
                    (ih ('[' :: cs2) a b _ _ _ _ _ (by simpa using hcn)
                      (by simpa using hca) (by simpa using hcb))
          · have hside : ∀ cs2 : List Char, c = '\x1b' → rest = '[' :: cs2 → False :=
              fun cs2 hc hr => hesc ⟨cs2, hc, hr⟩
            rw [parseLoop.eq_4 color row col cw chh a c rest hside,
                parseLoop.eq_4 color row col cw chh b c rest hside]
            by_cases hnl : c = '\n'
            · rw [if_pos hnl, if_pos hnl]
              exact ih rest a b _ _ _ _ _ hrn hra hrb
            · rw [if_neg hnl, if_neg hnl]
              by_cases hcr : c = '\r'
              · rw [if_pos hcr, if_pos hcr]
                exact ih rest a b _ _ _ _ _ hrn hra hrb
              · rw [if_neg hcr, if_neg hcr]
                exact congrArg (emitCell c color row col cw chh ++ ·)
                  (ih rest a b _ _ _ _ _ hrn hra hrb)
